import Mathlib

/-!
# Verification of the BROCO layout-tree engine

Shallow embedding of the layout-tree core of the BROCO page-layout editor:
the `LayoutNode` data model, tree utilities (split, delete-and-collapse,
directional merge), the snap-point selector, the drag-commit step, the
directional focus-navigation search, the undo/redo history stacks and the
multi-page document state.  Each definition is a direct functional
translation of the corresponding JavaScript function; in-place mutations of
the shared object graph become pure tree rewrites performed at the same
position the mutation would have happened (first match in the same
depth-first order the source uses).
-/

namespace Broco

/-- Image content of a leaf, as built by the asset handlers:
`{ assetId, fit }` plus an optional `flip` flag toggled later.
A JS spread copy `{...image}` is value equality here. -/
structure Image where
  assetId : String
  fit : String
  flip : Bool
deriving DecidableEq, Repr

/-- A layout node, translating the plain JS object
`{ id, splitState, orientation, children, image, text, textAlign, size }`.
`splitState` and `orientation` are the strings the source stores
(`'split'`/`'unsplit'`, `'vertical'`/`'horizontal'`); absent/null fields are
`none`.  The source keeps `children` as a two-element array (the binary
split invariant: every split writes `[childA, childB]`), embedded as an
ordered pair.  `size` is stored as a string `"<q>%"` in the source and read
back with `parseFloat`; it is embedded as the parsed rational. -/
inductive LNode where
  | mk (id : String) (splitState : String) (orientation : Option String)
       (size : Option ℚ) (image : Option Image) (text : Option String)
       (textAlign : Option String) (children : Option (LNode × LNode)) : LNode

namespace LNode

def id : LNode → String
  | .mk i _ _ _ _ _ _ _ => i

def splitState : LNode → String
  | .mk _ s _ _ _ _ _ _ => s

def orientation : LNode → Option String
  | .mk _ _ o _ _ _ _ _ => o

def size : LNode → Option ℚ
  | .mk _ _ _ sz _ _ _ _ => sz

def image : LNode → Option Image
  | .mk _ _ _ _ im _ _ _ => im

def text : LNode → Option String
  | .mk _ _ _ _ _ tx _ _ => tx

def textAlign : LNode → Option String
  | .mk _ _ _ _ _ _ ta _ => ta

def children : LNode → Option (LNode × LNode)
  | .mk _ _ _ _ _ _ _ c => c

end LNode

/-- `parseFloat(node.size) || 50`: a missing size parses to `NaN` and a
`"0%"` size parses to the falsy `0`; both fall back to `50`. -/
def parseSizeOr50 : Option ℚ → ℚ
  | none => 50
  | some v => if v = 0 then 50 else v

/-- `_findNodeRecursive(node, id)` (the pure search behind `findNodeById`;
the `state.nodeMap` fast path is a cache of exactly this result): preorder
depth-first search, first child before second. -/
def findNodeById : LNode → String → Option LNode
  | n@(.mk i _ _ _ _ _ _ none), tid => if i = tid then some n else none
  | n@(.mk i _ _ _ _ _ _ (some (a, b))), tid =>
    if i = tid then some n
    else match findNodeById a tid with
      | some r => some r
      | none => findNodeById b tid

/-- `findParentNode(root, childId)`: for each child in order, first compare
its id, then recurse into it. -/
def findParentNode : LNode → String → Option LNode
  | .mk _ _ _ _ _ _ _ none, _ => none
  | n@(.mk _ _ _ _ _ _ _ (some (a, b))), cid =>
    if a.id = cid then some n
    else match findParentNode a cid with
      | some r => some r
      | none =>
        if b.id = cid then some n
        else findParentNode b cid

/-- Rebuild a node with different children (an in-place write of
`node.children` in the source). -/
def LNode.withChildren : LNode → Option (LNode × LNode) → LNode
  | .mk i ss o sz im tx ta _, c => .mk i ss o sz im tx ta c

/-- Rebuild a node with a different size (an in-place write of
`node.size = `...%`` in the source). -/
def LNode.withSize : LNode → Option ℚ → LNode
  | .mk i ss o _ im tx ta c, sz => .mk i ss o sz im tx ta c

/-- The split logic of `handleSplitClick` (the block after the guards):
mark the leaf split, choose the orientation from the Alt modifier and the
rendered aspect ratio (`defaultIsVertical` = `width >= height`), create two
fresh `'50%'` leaves with ids `rect-<++currentId>`, and migrate any image
and text content to child A, or to child B when Ctrl is held.  Returns the
now-split node together with the advanced id counter. -/
def splitNode (node : LNode) (altKey ctrlKey defaultIsVertical : Bool) (cid : ℕ) :
    LNode × ℕ :=
  let orient : String :=
    if altKey then (if defaultIsVertical then "horizontal" else "vertical")
    else (if defaultIsVertical then "vertical" else "horizontal")
  let idA := "rect-" ++ toString (cid + 1)
  let idB := "rect-" ++ toString (cid + 2)
  match node with
  | .mk nid _ _ nsz nim ntx nta _ =>
    let ims : Option Image × Option Image :=
      match nim with
      | some im => if ctrlKey then (none, some im) else (some im, none)
      | none => (none, none)
    let txs : Option String × Option String × Option String × Option String × Option String :=
      match ntx with
      | some t =>
        if ctrlKey then (none, none, some t, nta, none) else (some t, nta, none, none, none)
      | none => (none, none, none, none, nta)
    let childA := LNode.mk idA "unsplit" none (some 50) ims.1 txs.1 txs.2.1 none
    let childB := LNode.mk idB "unsplit" none (some 50) ims.2 txs.2.2.1 txs.2.2.2.1 none
    (LNode.mk nid "split" (some orient) nsz none none txs.2.2.2.2 (some (childA, childB)),
      cid + 2)

/-- The collapse step of `deleteNodeFromTree`: the parent's own fields are
overwritten with the sibling's.  A split sibling donates its orientation and
children (the parent's content fields are left as they were); a leaf sibling
donates its content and the parent's children and orientation become null.
The parent keeps its own `id` and `size`. -/
def collapseInto (parent sibling : LNode) : LNode :=
  match parent, sibling with
  | .mk pid _ _ psz pim ptx pta _, .mk _ sss sor _ sim stx sta sch =>
    if sss = "split" then .mk pid sss sor psz pim ptx pta sch
    else .mk pid sss none psz sim stx sta none

/-- Result of the recursive deletion walk: no parent of the target found,
found but without a differently-named sibling (`siblingNode` undefined, the
source returns null untouched), or performed, carrying the rewritten
subtree and the collapsed parent's id. -/
inductive DelRes where
  | notFound : DelRes
  | aborted : DelRes
  | done (tree : LNode) (parentId : String) : DelRes

/-- `deleteNodeFromTree(root, nodeId)` fused into one walk: find the first
parent of `nodeId` in the depth-first order of `findParentNode` (child id
first, then recurse), take the first child whose id differs as the sibling,
and collapse the sibling into the parent in place. -/
def delGo (tid : String) : LNode → DelRes
  | .mk _ _ _ _ _ _ _ none => .notFound
  | n@(.mk _ _ _ _ _ _ _ (some (a, b))) =>
    if a.id = tid then
      if b.id = tid then .aborted else .done (collapseInto n b) n.id
    else
      match delGo tid a with
      | .done a' pid => .done (n.withChildren (some (a', b))) pid
      | .aborted => .aborted
      | .notFound =>
        if b.id = tid then .done (collapseInto n a) n.id
        else
          match delGo tid b with
          | .done b' pid => .done (n.withChildren (some (a, b'))) pid
          | r => r

/-- `deleteNodeFromTree(root, nodeId)`: the rewritten tree and the
collapsed parent's id (the source returns the mutated parent node, used for
focus restoration), or the unchanged tree and `none` when the target has no
parent or no sibling. -/
def deleteNodeFromTree (root : LNode) (tid : String) : LNode × Option String :=
  match delGo tid root with
  | .done t pid => (t, some pid)
  | _ => (root, none)

/-- The truthy test `child.id === focusedNodeId || (child.children &&
findNodeById(child, focusedNodeId))` that decides which side of the divider
contains the merge initiator (`focusedNodeId` may be null). -/
def jsContains (n : LNode) (fid : Option String) : Bool :=
  match fid with
  | none => false
  | some s => n.id = s || (n.children.isSome && (findNodeById n s).isSome)

/-- `return findNodeById(base, focusedNodeId) || base` — the id of the node
returned for focus restoration. -/
def mergeFocusId (base : LNode) (fid : Option String) : String :=
  match fid with
  | some s =>
    match findNodeById base s with
    | some r => r.id
    | none => base.id
  | none => base.id

/-- Body of `mergeNodesInTree` once the expander side is known.  Case A
(neighbor split in the parent's orientation): consume only the neighbor's
sub-child touching the shared boundary; the expander grows by
`neighborSize * consumedRelSize / 100` and the neighbor's other sub-child
takes `100 − newExpanderSize`, replacing the neighbor as the parent's other
child.  Case B: the parent itself is overwritten with the expander's full
state, keeping only its own `id` and `size`.  `none` models the source
throwing on a same-orientation split neighbor with null `children`. -/
def mergeCore (parentNode childA childB : LNode) (fid : Option String)
    (isExpanderA : Bool) : Option (LNode × String) :=
  let expander := if isExpanderA then childA else childB
  let neighbor := if isExpanderA then childB else childA
  if neighbor.splitState = "split" ∧ neighbor.orientation = parentNode.orientation then
    match neighbor.children with
    | none => none
    | some (nA, nB) =>
      let consumed := if isExpanderA then nA else nB
      let remaining := if isExpanderA then nB else nA
      let expanderSize := parseSizeOr50 expander.size
      let neighborSize := parseSizeOr50 neighbor.size
      let consumedRelSize := parseSizeOr50 consumed.size
      let newExpanderSize := expanderSize + neighborSize * consumedRelSize / 100
      let newRemainingSize := 100 - newExpanderSize
      let expander' := expander.withSize (some newExpanderSize)
      let remaining' := remaining.withSize (some newRemainingSize)
      let parent' := parentNode.withChildren
        (some (if isExpanderA then (expander', remaining') else (remaining', expander')))
      some (parent', mergeFocusId expander' fid)
  else
    match parentNode, expander with
    | .mk pid _ _ psz _ _ _ _, .mk _ ess eor _ eim etx eta ech =>
      let parent' := LNode.mk pid ess eor psz eim etx eta ech
      some (parent', mergeFocusId parent' fid)

/-- `mergeNodesInTree(parentNode, focusedNodeId)`: determine which child
contains the focused node; when neither does, the source retries with
`childA.id`, which is unfolded here into a direct call with child A as the
expander.  `none` models the source throwing on a parent with null
`children` (callers guard with `isDividerMergeable`). -/
def mergeNodesInTree (parentNode : LNode) (fid : Option String) :
    Option (LNode × String) :=
  match parentNode.children with
  | none => none
  | some (childA, childB) =>
    let isExpanderA := jsContains childA fid
    let isExpanderB := jsContains childB fid
    if !isExpanderA && !isExpanderB then
      mergeCore parentNode childA childB (some childA.id) true
    else
      mergeCore parentNode childA childB fid isExpanderA

/-! ## Snap candidate selection (`snapping.js`) -/

/-- `const MIN_JUMP = 1.2` — minimum distance for standard candidates. -/
def MIN_JUMP : ℚ := 12 / 10

/-- `const EPSILON = 0.01` — minimum distance for priority candidates. -/
def EPSILON : ℚ := 1 / 100

/-- `MIN_AREA_PERCENT = 1` from `constants.js` — sizes at or below this are
auto-deleted. -/
def MIN_AREA_PERCENT : ℚ := 1

/-- One iteration of the candidate loop in `findNextSnapPoint`: the state
is `none` (bestPoint undefined, minDiff Infinity) or `some (bestPoint,
minDiff)`.  Forward keeps the raw positive `diff`, backward keeps
`Math.abs(diff)`; updates only on a strictly smaller difference. -/
def snapStep (currentPct : ℚ) (isForward : Bool) (threshold : ℚ)
    (acc : Option (ℚ × ℚ)) (pt : ℚ) : Option (ℚ × ℚ) :=
  let diff := pt - currentPct
  if isForward then
    if threshold ≤ diff then
      match acc with
      | none => some (pt, diff)
      | some (bp, d) => if diff < d then some (pt, diff) else some (bp, d)
    else acc
  else
    if diff ≤ -threshold then
      match acc with
      | none => some (pt, |diff|)
      | some (bp, d) => if |diff| < d then some (pt, |diff|) else some (bp, d)
    else acc

/-- `processCandidates(list, threshold)` folded over the list. -/
def processCandidates (currentPct : ℚ) (isForward : Bool) (threshold : ℚ)
    (list : List ℚ) (acc : Option (ℚ × ℚ)) : Option (ℚ × ℚ) :=
  list.foldl (snapStep currentPct isForward threshold) acc

/-- `findNextSnapPoint(currentPct, candidates, priorityCandidates,
direction)`: standard candidates are processed with `MIN_JUMP`, then
priority candidates with `EPSILON`, sharing the running minimum; the best
point survives, or `none` (undefined) when nothing qualifies. -/
def findNextSnapPoint (currentPct : ℚ) (candidates priorityCandidates : List ℚ)
    (direction : String) : Option ℚ :=
  let isForward := direction = "ArrowRight" || direction = "ArrowDown"
  (processCandidates currentPct isForward EPSILON priorityCandidates
    (processCandidates currentPct isForward MIN_JUMP candidates none)).map (·.1)

/-! ## Drag commit (`dragHandler.js` `stopDrag`) -/

/-- Apply `f` to the first node with id `tid` in the `findNodeById`
preorder, rebuilding the spine (an in-place mutation through a reference in
the source); `none` if no such node. -/
def replaceFirst (tid : String) (f : LNode → LNode) : LNode → Option LNode
  | n@(.mk _ _ _ _ _ _ _ none) => if n.id = tid then some (f n) else none
  | n@(.mk _ _ _ _ _ _ _ (some (a, b))) =>
    if n.id = tid then some (f n)
    else
      match replaceFirst tid f a with
      | some a' => some (n.withChildren (some (a', b)))
      | none => (replaceFirst tid f b).map fun b' => n.withChildren (some (a, b'))

/-- `const node = findNodeById(subtree, tid); if (node) node.size = ...`:
write a size on the first matching node, no-op when absent. -/
def setSizeFirst (n : LNode) (tid : String) (v : ℚ) : LNode :=
  (replaceFirst tid (fun m => m.withSize (some v)) n).getD n

/-- The tree-committing tail of `stopDrag`: normalize the two flex sizes to
percentages summing to 100, write them into the two sibling nodes found
inside the divider's parent, then delete side A if its percentage is at or
below `MIN_AREA_PERCENT`, else side B under the same test.  `fA`, `fB` are
the `flexGrow` values read back from the two rectangles. -/
def stopDragCommit (page : LNode) (rectAId rectBId parentId : String)
    (fA fB : ℚ) : LNode :=
  let total := fA + fB
  let pA := fA / total * 100
  let pB := fB / total * 100
  let page1 :=
    match findNodeById page parentId with
    | some pn =>
      if pn.children.isSome then
        (replaceFirst parentId
          (fun p => setSizeFirst (setSizeFirst p rectAId pA) rectBId pB) page).getD page
      else page
    | none => page
  if pA ≤ MIN_AREA_PERCENT then (deleteNodeFromTree page1 rectAId).1
  else if pB ≤ MIN_AREA_PERCENT then (deleteNodeFromTree page1 rectBId).1
  else page1

/-- The spec's *effective area* of every node of a subtree: the committed
percentage of the drag side for the subtree root, multiplied by
`size / 100` at each further step down. -/
def effAreas : LNode → ℚ → List (String × ℚ)
  | n@(.mk _ _ _ _ _ _ _ none), base => [(n.id, base)]
  | n@(.mk _ _ _ _ _ _ _ (some (a, b))), base =>
    (n.id, base) ::
      (effAreas a (base * parseSizeOr50 a.size / 100) ++
       effAreas b (base * parseSizeOr50 b.size / 100))

/-! ## Directional focus navigation (`keyboard.js` `getClosestRect`) -/

/-- A cached `getBoundingClientRect()` result. -/
structure RectBounds where
  left : ℚ
  top : ℚ
  width : ℚ
  height : ℚ
deriving DecidableEq, Repr

def centerX (r : RectBounds) : ℚ := r.left + r.width / 2

def centerY (r : RectBounds) : ℚ := r.top + r.height / 2

/-- One iteration of the candidate loop in `getClosestRect`: skip the
current element; a candidate is valid only when its center is strictly past
the current center along the direction's axis, and its distance weights the
cross-axis deviation twice as heavily; keep the strictly closest. -/
def closestStep (cX cY : ℚ) (cur : String) (direction : String)
    (acc : Option (String × ℚ)) (entry : String × RectBounds) :
    Option (String × ℚ) :=
  if entry.1 = cur then acc
  else
    let x := centerX entry.2
    let y := centerY entry.2
    let vd : Bool × ℚ :=
      if direction = "ArrowUp" then (decide (y < cY), |cY - y| + |cX - x| * 2)
      else if direction = "ArrowDown" then (decide (cY < y), |y - cY| + |cX - x| * 2)
      else if direction = "ArrowLeft" then (decide (x < cX), |cX - x| + |cY - y| * 2)
      else if direction = "ArrowRight" then (decide (cX < x), |x - cX| + |cY - y| * 2)
      else (false, 0)
    if vd.1 && (match acc with | none => true | some (_, d) => vd.2 < d) then
      some (entry.1, vd.2)
    else acc

/-- `getClosestRect(current, direction)` over a freshly rebuilt bounds
cache: `none` when the page has at most one unsplit leaf; the current
element's bounds come from its cache entry, falling back to a live
`getBoundingClientRect()` read (`curLive`) when it is not cached. -/
def getClosestRect (cache : List (String × RectBounds)) (cur : String)
    (curLive : RectBounds) (direction : String) : Option String :=
  if cache.length ≤ 1 then none
  else
    let currentRect := ((cache.find? (fun e => e.1 = cur)).map (·.2)).getD curLive
    let cX := centerX currentRect
    let cY := centerY currentRect
    (cache.foldl (closestStep cX cY cur direction) none).map (·.1)

/-! ## History (`history.js`) -/

/-- `MAX_HISTORY = 50` from `constants.js`. -/
def MAX_HISTORY : ℕ := 50

/-- The undo/redo module state over an abstract serializable document state
`α` (in the source a snapshot is `{ html: paper.innerHTML, currentId:
state.currentId }`).  Stacks are most-recent-first: a JS `push` is a cons,
a `pop` takes the head, and the evicting `shift` drops the last. -/
structure Hist (α : Type) where
  undoStack : List α
  redoStack : List α
  live : α
deriving DecidableEq, Repr

/-- `saveState()`: push a snapshot of the live state, evict the oldest
entry beyond `MAX_HISTORY`, clear the redo stack. -/
def saveState {α : Type} (h : Hist α) : Hist α :=
  let pushed := h.live :: h.undoStack
  { undoStack := if MAX_HISTORY < pushed.length then pushed.dropLast else pushed
    redoStack := []
    live := h.live }

/-- `undo(rebindCallback)`: no-op on an empty undo stack; otherwise push
the live state onto the redo stack, pop the most recent undo entry and
restore it (`restoreState` writes both the html and, via `updateCurrentId`,
the saved id counter). -/
def undo {α : Type} (h : Hist α) : Hist α :=
  match h.undoStack with
  | [] => h
  | prev :: rest =>
    { undoStack := rest, redoStack := h.live :: h.redoStack, live := prev }

/-- `redo(rebindCallback)`: symmetric to `undo`. -/
def redo {α : Type} (h : Hist α) : Hist α :=
  match h.redoStack with
  | [] => h
  | next :: rest =>
    { undoStack := h.live :: h.undoStack, redoStack := rest, live := next }

/-- An arbitrary mutation of the live document between history actions. -/
def mutate {α : Type} (f : α → α) (h : Hist α) : Hist α :=
  { h with live := f h.live }

/-- One editing step: `saveState()` immediately followed by a mutation. -/
def editStep {α : Type} (h : Hist α) (f : α → α) : Hist α :=
  mutate f (saveState h)

/-- A sequence of editing steps. -/
def runEdits {α : Type} (h : Hist α) (fs : List (α → α)) : Hist α :=
  fs.foldl editStep h

/-- `n` consecutive `undo` calls. -/
def undoN {α : Type} : ℕ → Hist α → Hist α
  | 0, h => h
  | n + 1, h => undoN n (undo h)

/-! ## Page collection (`state.js`) -/

/-- The document-level slice of the module state: the ordered page list,
the current page index, and the monotonically incremented id counter. -/
structure DocState where
  pages : List LNode
  currentPageIndex : ℤ
  currentId : ℕ

/-- `Array.prototype.splice(start, 1)` removal: a negative start counts
from the end (clamped at 0), a start at or past the length removes
nothing. -/
def jsSpliceRemoveOne {α : Type} (l : List α) (start : ℤ) : List α :=
  let len : ℤ := l.length
  let actualStart : ℤ := if start < 0 then max (len + start) 0 else min start len
  l.take actualStart.toNat ++ l.drop (actualStart.toNat + 1)

/-- The fresh one-leaf page object built by `addPage`. -/
def freshPage (cid : ℕ) : LNode :=
  LNode.mk ("rect-" ++ toString cid) "unsplit" none none none none none none

/-- `addPage()`: increment the id counter, append a fresh leaf page, make
it current. -/
def addPage (s : DocState) : DocState :=
  let cid := s.currentId + 1
  { pages := s.pages ++ [freshPage cid]
    currentPageIndex := (s.pages.length : ℤ)
    currentId := cid }

/-- `switchPage(index)`: change the current index only when in range. -/
def switchPage (index : ℤ) (s : DocState) : DocState :=
  if 0 ≤ index ∧ index < (s.pages.length : ℤ) then
    { s with currentPageIndex := index }
  else s

/-- `deletePage(index)`: refuse to delete the last remaining page; splice
the page out, then clamp the current index to the new last page if it fell
off the end. -/
def deletePage (index : ℤ) (s : DocState) : DocState :=
  if s.pages.length ≤ 1 then s
  else
    let pages' := jsSpliceRemoveOne s.pages index
    let cpi :=
      if (pages'.length : ℤ) ≤ s.currentPageIndex then (pages'.length : ℤ) - 1
      else s.currentPageIndex
    { s with pages := pages', currentPageIndex := cpi }

/-- The recursive `updateIds` of `duplicatePage`: rewrite every id of the
clone to `rect-${++state.currentId}` in preorder, returning the advanced
counter. -/
def updateIds : LNode → ℕ → LNode × ℕ
  | .mk _ ss o sz im tx ta none, cid =>
    (LNode.mk ("rect-" ++ toString (cid + 1)) ss o sz im tx ta none, cid + 1)
  | .mk _ ss o sz im tx ta (some (a, b)), cid =>
    let cid1 := cid + 1
    let (a', cid2) := updateIds a cid1
    let (b', cid3) := updateIds b cid2
    (LNode.mk ("rect-" ++ toString cid1) ss o sz im tx ta (some (a', b')), cid3)

/-- `duplicatePage(index)`: ignore out-of-range indices; deep-clone the
page, rewrite all its ids to fresh values, insert it right after the
original and switch to it. -/
def duplicatePage (index : ℤ) (s : DocState) : DocState :=
  if index < 0 ∨ (s.pages.length : ℤ) ≤ index then s
  else
    match s.pages.get? index.toNat with
    | none => s
    | some originalPage =>
      let (clonedPage, cid') := updateIds originalPage s.currentId
      { pages := s.pages.take (index.toNat + 1) ++ clonedPage :: s.pages.drop (index.toNat + 1)
        currentPageIndex := index + 1
        currentId := cid' }

/-- `reorderPage(fromIndex, toIndex)`: ignore equal or out-of-range
indices; move the page and adjust the current index to keep pointing at
the same page. -/
def reorderPage (fromIndex toIndex : ℤ) (s : DocState) : DocState :=
  if fromIndex = toIndex then s
  else if fromIndex < 0 ∨ (s.pages.length : ℤ) ≤ fromIndex then s
  else if toIndex < 0 ∨ (s.pages.length : ℤ) ≤ toIndex then s
  else
    match s.pages.get? fromIndex.toNat with
    | none => s
    | some movedPage =>
      let removed := s.pages.take fromIndex.toNat ++ s.pages.drop (fromIndex.toNat + 1)
      let pages' := removed.take toIndex.toNat ++ movedPage :: removed.drop toIndex.toNat
      let cpi :=
        if s.currentPageIndex = fromIndex then toIndex
        else if fromIndex < s.currentPageIndex ∧ s.currentPageIndex ≤ toIndex then
          s.currentPageIndex - 1
        else if s.currentPageIndex < fromIndex ∧ toIndex ≤ s.currentPageIndex then
          s.currentPageIndex + 1
        else s.currentPageIndex
      { s with pages := pages', currentPageIndex := cpi }

/-- The page-collection invariant: at least one page, and the current page
index addresses one of them. -/
def PagesInvariant (s : DocState) : Prop :=
  s.pages ≠ [] ∧ 0 ≤ s.currentPageIndex ∧ s.currentPageIndex < (s.pages.length : ℤ)

/-- The direction and per-tier distance filter of `findNextSnapPoint`:
a forward direction (`Right`/`Down`) accepts a candidate at least
`threshold` above the current position, a backward one at least
`threshold` below. -/
def snapQualifies (currentPct : ℚ) (isForward : Bool) (threshold pt : ℚ) : Prop :=
  if isForward then threshold ≤ pt - currentPct else pt - currentPct ≤ -threshold

instance snapQualifies.instDecidable (currentPct : ℚ) (isForward : Bool)
    (threshold pt : ℚ) : Decidable (snapQualifies currentPct isForward threshold pt) := by
  unfold snapQualifies
  split <;> infer_instance

/-! ## Concrete example inputs used by witnesses and counterexamples -/

/-- A concrete leaf holding both an image and text. -/
def exLeaf : LNode :=
  .mk "rect-9" "unsplit" none (some 100) (some ⟨"asset-7", "cover", false⟩)
    (some "hello") (some "center") none

/-- Left child `A` (40%) of the merge example `[A | [B | C]]`. -/
def exA : LNode := .mk "rect-A" "unsplit" none (some 40) none none none none

/-- Sub-child `B` (30%) of the merge example. -/
def exB : LNode := .mk "rect-B1" "unsplit" none (some 30) none none none none

/-- Sub-child `C` (70%) of the merge example. -/
def exC : LNode := .mk "rect-B2" "unsplit" none (some 70) none none none none

/-- The 60% neighbor `[B | C]`, split in the parent's orientation. -/
def exN : LNode :=
  .mk "BC" "split" (some "vertical") (some 60) none none none (some (exB, exC))

/-- The merge example parent `[A | [B | C]]`. -/
def exP : LNode :=
  .mk "P" "split" (some "vertical") (some 100) none none none (some (exA, exN))

/-- A 1%-sized grandchild on the A side of the drag example. -/
def dragA1 : LNode := .mk "a1" "unsplit" none (some 1) none none none none

/-- The 99%-sized sibling grandchild of the drag example. -/
def dragA2 : LNode := .mk "a2" "unsplit" none (some 99) none none none none

/-- Side A of the drag example: split orthogonally into a 1% and a 99%
leaf. -/
def dragA : LNode :=
  .mk "a" "split" (some "horizontal") (some 50) none none none (some (dragA1, dragA2))

/-- Side B of the drag example: a plain leaf. -/
def dragB : LNode := .mk "b" "unsplit" none (some 50) none none none none

/-- The drag example page: a vertical root whose divider is dragged to a
50/50 commit while side A hides a 1% grandchild. -/
def dragPage : LNode :=
  .mk "p" "split" (some "vertical") none none none none (some (dragA, dragB))

/-! ## Theorems -/

/-- Unfolding lemma for `findNodeById` on a constructor with opaque
children: the id check happens before the children are examined. -/
theorem findNodeById_mk (i ss : String) (o : Option String) (sz : Option ℚ)
    (im : Option Image) (tx ta : Option String) (c : Option (LNode × LNode))
    (tid : String) :
    findNodeById (.mk i ss o sz im tx ta c) tid =
      if i = tid then some (.mk i ss o sz im tx ta c)
      else
        match c with
        | none => none
        | some (a, b) =>
          match findNodeById a tid with
          | some r => some r
          | none => findNodeById b tid := by
  match c with
  | none => rfl
  | some (a, b) => rfl

/-- Claim C7: splitting any leaf yields a node with exactly two children
whose sizes sum to 100, and the leaf's image and text content is migrated
to exactly one of the two children — present there, absent from the other
child and from the now-split parent, never duplicated and never lost. -/
theorem splitNode_leaf_invariant (node : LNode)
    (altKey ctrlKey defaultIsVertical : Bool) (cid : ℕ)
    (hleaf : node.splitState = "unsplit") :
    ∃ a b,
      ((splitNode node altKey ctrlKey defaultIsVertical cid).1).children = some (a, b) ∧
      parseSizeOr50 a.size + parseSizeOr50 b.size = 100 ∧
      ((splitNode node altKey ctrlKey defaultIsVertical cid).1).splitState = "split" ∧
      ((splitNode node altKey ctrlKey defaultIsVertical cid).1).image = none ∧
      ((splitNode node altKey ctrlKey defaultIsVertical cid).1).text = none ∧
      (∀ im, node.image = some im →
        (a.image = some im ∧ b.image = none) ∨ (a.image = none ∧ b.image = some im)) ∧
      (node.image = none → a.image = none ∧ b.image = none) ∧
      (∀ t, node.text = some t →
        (a.text = some t ∧ a.textAlign = node.textAlign ∧ b.text = none) ∨
        (b.text = some t ∧ b.textAlign = node.textAlign ∧ a.text = none)) ∧
      (node.text = none → a.text = none ∧ b.text = none) := by
  obtain ⟨nid, nss, nor, nsz, nim, ntx, nta, nch⟩ := node
  cases nim <;> cases ntx <;> cases ctrlKey <;>
    exact ⟨_, _, rfl, by norm_num [parseSizeOr50, LNode.size, splitNode], rfl, rfl, rfl,
      by simp [splitNode, LNode.image], by simp [splitNode, LNode.image],
      by simp [splitNode, LNode.text, LNode.textAlign],
      by simp [splitNode, LNode.text]⟩

/-- Claim C7 witness: the split invariant instantiated at a concrete leaf
holding both an image and text. -/
theorem splitNode_leaf_invariant_witness :
    exLeaf.splitState = "unsplit" ∧
    ∃ a b,
      ((splitNode exLeaf false false true 9).1).children = some (a, b) ∧
      parseSizeOr50 a.size + parseSizeOr50 b.size = 100 ∧
      ((splitNode exLeaf false false true 9).1).splitState = "split" ∧
      ((splitNode exLeaf false false true 9).1).image = none ∧
      ((splitNode exLeaf false false true 9).1).text = none ∧
      (∀ im, exLeaf.image = some im →
        (a.image = some im ∧ b.image = none) ∨ (a.image = none ∧ b.image = some im)) ∧
      (exLeaf.image = none → a.image = none ∧ b.image = none) ∧
      (∀ t, exLeaf.text = some t →
        (a.text = some t ∧ a.textAlign = exLeaf.textAlign ∧ b.text = none) ∨
        (b.text = some t ∧ b.textAlign = exLeaf.textAlign ∧ a.text = none)) ∧
      (exLeaf.text = none → a.text = none ∧ b.text = none) :=
  ⟨rfl, splitNode_leaf_invariant exLeaf false false true 9 rfl⟩

/-- Claim C8: collapse inverts split on content — splitting a leaf with
content (Ctrl not held, so the content migrates to child A) and then
applying delete-and-collapse to child B (the child that did not receive the
content) restores the parent to an unsplit leaf with no children, holding
the original image and text, and the original text alignment whenever text
was present (child A's original content). -/
theorem deleteNodeFromTree_inverts_splitNode (node : LNode)
    (altKey defaultIsVertical : Bool) (cid : ℕ)
    (hleaf : node.splitState = "unsplit")
    (hcontent : node.image ≠ none ∨ node.text ≠ none)
    (hid : ("rect-" ++ toString (cid + 1) : String) ≠ "rect-" ++ toString (cid + 2)) :
    ∃ d,
      (deleteNodeFromTree (splitNode node altKey false defaultIsVertical cid).1
        ("rect-" ++ toString (cid + 2))).1 = d ∧
      d.splitState = "unsplit" ∧ d.children = none ∧ d.image = node.image ∧
      d.text = node.text ∧ (node.text ≠ none → d.textAlign = node.textAlign) ∧
      d.id = node.id ∧ d.size = node.size := by
  obtain ⟨nid, nss, nor, nsz, nim, ntx, nta, nch⟩ := node
  refine ⟨_, rfl, ?_⟩
  cases nim <;> cases ntx <;>
    simp [splitNode, deleteNodeFromTree, delGo, collapseInto, LNode.id,
      LNode.splitState, LNode.children, LNode.image, LNode.text,
      LNode.textAlign, LNode.size, hid]

/-- Claim C8 witness: the collapse-inverts-split property instantiated at
the concrete leaf `exLeaf` with counter 9 (children `rect-10`, `rect-11`). -/
theorem deleteNodeFromTree_inverts_splitNode_witness :
    exLeaf.splitState = "unsplit" ∧
    (exLeaf.image ≠ none ∨ exLeaf.text ≠ none) ∧
    ("rect-" ++ toString (9 + 1) : String) ≠ "rect-" ++ toString (9 + 2) ∧
    ∃ d,
      (deleteNodeFromTree (splitNode exLeaf false false true 9).1
        ("rect-" ++ toString (9 + 2))).1 = d ∧
      d.splitState = "unsplit" ∧ d.children = none ∧ d.image = exLeaf.image ∧
      d.text = exLeaf.text ∧ (exLeaf.text ≠ none → d.textAlign = exLeaf.textAlign) ∧
      d.id = exLeaf.id ∧ d.size = exLeaf.size :=
  ⟨rfl, .inl (by decide), by decide,
    deleteNodeFromTree_inverts_splitNode exLeaf false true 9 rfl
      (.inl (by decide)) (by decide)⟩

/-- Claim C3: a directional merge whose neighbor is split in the parent's
orientation consumes only the neighbor's sub-child touching the shared
boundary: in `[A | [B | C]]` merged from `A`, the expander's new size is
`expanderSize + neighborSize * (consumedChild.size / 100)`, the neighbor's
other sub-child `C` takes `100 −` that and replaces the neighbor as the
parent's second child, and focus returns to `A`. -/
theorem mergeNodesInTree_same_orientation
    (pid pss porient : String) (psz : Option ℚ) (pim : Option Image)
    (ptx pta : Option String) (A B C : LNode) (nid : String) (nsz : ℚ)
    (nim : Option Image) (ntx nta : Option String) (asz bsz : ℚ)
    (hA : A.size = some asz) (ha0 : asz ≠ 0) (hn0 : nsz ≠ 0)
    (hB : B.size = some bsz) (hb0 : bsz ≠ 0) :
    mergeNodesInTree
      (.mk pid pss (some porient) psz pim ptx pta
        (some (A, .mk nid "split" (some porient) (some nsz) nim ntx nta (some (B, C)))))
      (some A.id) =
      some (LNode.mk pid pss (some porient) psz pim ptx pta
          (some (A.withSize (some (asz + nsz * bsz / 100)),
                 C.withSize (some (100 - (asz + nsz * bsz / 100))))),
        A.id) := by
  obtain ⟨aid, ass, aor, aszf, aim, atx, ata, ach⟩ := A
  obtain ⟨bid, bss, bor, bszf, bim, btx, bta, bch⟩ := B
  simp only [LNode.size] at hA hB
  subst hA hB
  simp [mergeNodesInTree, mergeCore, jsContains, mergeFocusId, findNodeById_mk,
    parseSizeOr50, LNode.children, LNode.id, LNode.splitState, LNode.orientation,
    LNode.size, LNode.withSize, LNode.withChildren, ha0, hn0, hb0]

/-- Claim C3 witness: the exact numeric example — `A = 40%`, `B = 30%`,
`C = 70%` of a `60%` group merge to `A' = 58%` and `C' = 42%`. -/
theorem mergeNodesInTree_same_orientation_witness :
    exA.size = some 40 ∧ (40 : ℚ) ≠ 0 ∧ (60 : ℚ) ≠ 0 ∧ exB.size = some 30 ∧ (30 : ℚ) ≠ 0 ∧
    mergeNodesInTree exP (some exA.id) =
      some (LNode.mk "P" "split" (some "vertical") (some 100) none none none
          (some (exA.withSize (some (40 + 60 * 30 / 100)),
                 exC.withSize (some (100 - (40 + 60 * 30 / 100))))),
        exA.id) ∧
    (40 + 60 * 30 / 100 : ℚ) = 58 ∧ (100 - (40 + 60 * 30 / 100) : ℚ) = 42 :=
  ⟨rfl, by norm_num, by norm_num, rfl, by norm_num,
    mergeNodesInTree_same_orientation "P" "split" "vertical" (some 100) none none none
      exA exB exC "BC" 60 none none none 40 30 rfl (by norm_num) (by norm_num)
      rfl (by norm_num),
    by norm_num, by norm_num⟩

/-- Claim C4: snap point selection obeys direction and per-tier
thresholds — `findNextSnapPoint(50,[60],[],Right) = 60`; a standard
candidate 1 point away is below `MIN_JUMP` and rejected; a priority
candidate 0.5 away passes the `EPSILON` tier; a backward candidate is
rejected in a forward direction regardless of tier. -/
theorem findNextSnapPoint_directionality :
    findNextSnapPoint 50 [60] [] "ArrowRight" = some 60 ∧
    findNextSnapPoint 50 [51] [] "ArrowRight" = none ∧
    findNextSnapPoint 50 [] [101 / 2] "ArrowRight" = some (101 / 2) ∧
    findNextSnapPoint 50 [] [40] "ArrowRight" = none := by
  refine ⟨?_, ?_, ?_, ?_⟩ <;>
    norm_num [findNextSnapPoint, processCandidates, snapStep, MIN_JUMP, EPSILON]

/-- `snapStep` on an empty accumulator: take the candidate iff it
qualifies, storing its absolute distance. -/
theorem snapStep_none_eq (c : ℚ) (fwd : Bool) (thr pt : ℚ) (hthr : 0 < thr) :
    snapStep c fwd thr none pt =
      if snapQualifies c fwd thr pt then some (pt, |pt - c|) else none := by
  cases fwd with
  | false => simp [snapStep, snapQualifies]
  | true =>
    simp only [snapStep, snapQualifies, if_true]
    by_cases h : thr ≤ pt - c
    · have habs : |pt - c| = pt - c := abs_of_pos (lt_of_lt_of_le hthr h)
      simp [h, habs]
    · simp [h]

/-- `snapStep` on a populated accumulator: replace it iff the candidate
qualifies and is strictly closer. -/
theorem snapStep_some_eq (c : ℚ) (fwd : Bool) (thr pt b0 d0 : ℚ) (hthr : 0 < thr) :
    snapStep c fwd thr (some (b0, d0)) pt =
      if snapQualifies c fwd thr pt ∧ |pt - c| < d0 then some (pt, |pt - c|)
      else some (b0, d0) := by
  cases fwd with
  | false =>
    simp only [snapStep, snapQualifies, Bool.false_eq_true, if_false]
    by_cases h : pt - c ≤ -thr
    · by_cases h2 : |pt - c| < d0 <;> simp [h, h2]
    · simp [h]
  | true =>
    simp only [snapStep, snapQualifies, if_true]
    by_cases h : thr ≤ pt - c
    · have habs : |pt - c| = pt - c := abs_of_pos (lt_of_lt_of_le hthr h)
      rw [habs]
      by_cases h2 : pt - c < d0 <;> simp [h, h2]
    · simp [h]

/-- A populated accumulator survives every step (possibly replaced, never
dropped). -/
theorem snapStep_some_isSome (c : ℚ) (fwd : Bool) (thr pt b0 d0 : ℚ) (hthr : 0 < thr) :
    ∃ b1 d1, snapStep c fwd thr (some (b0, d0)) pt = some (b1, d1) ∧ d1 ≤ d0 := by
  rw [snapStep_some_eq c fwd thr pt b0 d0 hthr]
  by_cases h : snapQualifies c fwd thr pt ∧ |pt - c| < d0
  · exact ⟨pt, |pt - c|, by simp [h], le_of_lt h.2⟩
  · exact ⟨b0, d0, by simp [h], le_refl d0⟩

/-- The accumulator's stored difference is always the absolute distance of
its stored point. -/
theorem processCandidates_form (c : ℚ) (fwd : Bool) (thr : ℚ) (hthr : 0 < thr)
    (l : List ℚ) :
    ∀ acc : Option (ℚ × ℚ), (∀ bp d, acc = some (bp, d) → d = |bp - c|) →
      ∀ bp d, processCandidates c fwd thr l acc = some (bp, d) → d = |bp - c| := by
  induction l with
  | nil => intro acc hacc bp d h; exact hacc bp d h
  | cons p l ih =>
    intro acc hacc bp d h
    refine ih (snapStep c fwd thr acc p) ?_ bp d h
    intro b1 d1 hstep
    match acc with
    | none =>
      rw [snapStep_none_eq c fwd thr p hthr] at hstep
      by_cases hq : snapQualifies c fwd thr p
      · rw [if_pos hq] at hstep
        obtain ⟨rfl, rfl⟩ := Prod.mk.injEq .. ▸ Option.some.inj hstep
        rfl
      · rw [if_neg hq] at hstep; cases hstep
    | some (b0, d0) =>
      rw [snapStep_some_eq c fwd thr p b0 d0 hthr] at hstep
      by_cases hq : snapQualifies c fwd thr p ∧ |p - c| < d0
      · rw [if_pos hq] at hstep
        obtain ⟨rfl, rfl⟩ := Prod.mk.injEq .. ▸ Option.some.inj hstep
        rfl
      · rw [if_neg hq] at hstep
        obtain ⟨rfl, rfl⟩ := Prod.mk.injEq .. ▸ Option.some.inj hstep
        exact hacc _ _ rfl

/-- The run returns `none` exactly when it started empty and no candidate
qualifies. -/
theorem processCandidates_none_iff (c : ℚ) (fwd : Bool) (thr : ℚ) (hthr : 0 < thr)
    (l : List ℚ) :
    ∀ acc : Option (ℚ × ℚ),
      (processCandidates c fwd thr l acc = none ↔
        acc = none ∧ ∀ p ∈ l, ¬ snapQualifies c fwd thr p) := by
  induction l with
  | nil => intro acc; simp [processCandidates]
  | cons p l ih =>
    intro acc
    have hstep : (snapStep c fwd thr acc p = none) ↔
        (acc = none ∧ ¬ snapQualifies c fwd thr p) := by
      match acc with
      | none =>
        rw [snapStep_none_eq c fwd thr p hthr]
        by_cases hq : snapQualifies c fwd thr p <;> simp [hq]
      | some (b0, d0) =>
        rw [snapStep_some_eq c fwd thr p b0 d0 hthr]
        by_cases hq : snapQualifies c fwd thr p ∧ |p - c| < d0 <;> simp [hq]
    have hunfold : processCandidates c fwd thr (p :: l) acc =
        processCandidates c fwd thr l (snapStep c fwd thr acc p) := rfl
    rw [hunfold, ih (snapStep c fwd thr acc p), hstep]
    constructor
    · rintro ⟨⟨h1, h2⟩, h3⟩
      exact ⟨h1, by intro q hq; rcases List.mem_cons.mp hq with rfl | hq' <;>
        [exact h2; exact h3 q hq']⟩
    · rintro ⟨h1, h2⟩
      exact ⟨⟨h1, h2 p (List.mem_cons_self p l)⟩,
        fun q hq => h2 q (List.mem_cons_of_mem p hq)⟩

/-- Where a result can come from: it was already in the accumulator, or it
is a qualifying member of the processed list. -/
theorem processCandidates_provenance (c : ℚ) (fwd : Bool) (thr : ℚ) (hthr : 0 < thr)
    (l : List ℚ) :
    ∀ acc bp d, processCandidates c fwd thr l acc = some (bp, d) →
      acc = some (bp, d) ∨ (bp ∈ l ∧ snapQualifies c fwd thr bp) := by
  induction l with
  | nil => intro acc bp d h; exact .inl h
  | cons p l ih =>
    intro acc bp d h
    rcases ih (snapStep c fwd thr acc p) bp d h with hstep | ⟨hmem, hq⟩
    · match acc with
      | none =>
        rw [snapStep_none_eq c fwd thr p hthr] at hstep
        by_cases hq : snapQualifies c fwd thr p
        · rw [if_pos hq] at hstep
          obtain ⟨rfl, rfl⟩ := Prod.mk.injEq .. ▸ Option.some.inj hstep
          exact .inr ⟨List.mem_cons_self p l, hq⟩
        · rw [if_neg hq] at hstep; cases hstep
      | some (b0, d0) =>
        rw [snapStep_some_eq c fwd thr p b0 d0 hthr] at hstep
        by_cases hq : snapQualifies c fwd thr p ∧ |p - c| < d0
        · rw [if_pos hq] at hstep
          obtain ⟨rfl, rfl⟩ := Prod.mk.injEq .. ▸ Option.some.inj hstep
          exact .inr ⟨List.mem_cons_self p l, hq.1⟩
        · rw [if_neg hq] at hstep
          exact .inl hstep
    · exact .inr ⟨List.mem_cons_of_mem p hmem, hq⟩

/-- The stored difference never increases along a run. -/
theorem processCandidates_mono (c : ℚ) (fwd : Bool) (thr : ℚ) (hthr : 0 < thr)
    (l : List ℚ) :
    ∀ b0 d0 bp d,
      processCandidates c fwd thr l (some (b0, d0)) = some (bp, d) → d ≤ d0 := by
  induction l with
  | nil =>
    intro b0 d0 bp d h
    obtain ⟨rfl, rfl⟩ := Prod.mk.injEq .. ▸ Option.some.inj h
    exact le_refl _
  | cons p l ih =>
    intro b0 d0 bp d h
    obtain ⟨b1, d1, hstep, hle⟩ := snapStep_some_isSome c fwd thr p b0 d0 hthr
    have hunfold : processCandidates c fwd thr (p :: l) (some (b0, d0)) =
        processCandidates c fwd thr l (snapStep c fwd thr (some (b0, d0)) p) := rfl
    rw [hunfold, hstep] at h
    exact le_trans (ih b1 d1 bp d h) hle

/-- The result's stored difference is at most the distance of every
qualifying member of the processed list. -/
theorem processCandidates_min (c : ℚ) (fwd : Bool) (thr : ℚ) (hthr : 0 < thr)
    (l : List ℚ) :
    ∀ acc bp d, processCandidates c fwd thr l acc = some (bp, d) →
      ∀ q ∈ l, snapQualifies c fwd thr q → d ≤ |q - c| := by
  induction l with
  | nil => intro acc bp d _ q hq; cases hq
  | cons p l ih =>
    intro acc bp d h q hq hqual
    have hunfold : processCandidates c fwd thr (p :: l) acc =
        processCandidates c fwd thr l (snapStep c fwd thr acc p) := rfl
    rw [hunfold] at h
    rcases List.mem_cons.mp hq with rfl | hq'
    · -- `q = p`: after the step the accumulator is at most `|p - c|` away
      match acc with
      | none =>
        rw [snapStep_none_eq c fwd thr q hthr, if_pos hqual] at h
        exact processCandidates_mono c fwd thr hthr l q (|q - c|) bp d h
      | some (b0, d0) =>
        rw [snapStep_some_eq c fwd thr q b0 d0 hthr] at h
        by_cases hcl : snapQualifies c fwd thr q ∧ |q - c| < d0
        · rw [if_pos hcl] at h
          exact processCandidates_mono c fwd thr hthr l q (|q - c|) bp d h
        · rw [if_neg hcl] at h
          have hd0 : d0 ≤ |q - c| := by
            rcases not_and_or.mp hcl with hq1 | hq2
            · exact absurd hqual hq1
            · exact le_of_not_lt hq2
          exact le_trans (processCandidates_mono c fwd thr hthr l b0 d0 bp d h) hd0
    · exact ih (snapStep c fwd thr acc p) bp d h q hq' hqual

/-- Two candidates that both pass their (positive) thresholds in the same
direction and lie at the same distance are the same point. -/
theorem snapQualifies_eq_of_dist_eq (c : ℚ) (fwd : Bool) (thr1 thr2 x p : ℚ)
    (h1 : 0 < thr1) (h2 : 0 < thr2)
    (hx : snapQualifies c fwd thr1 x) (hp : snapQualifies c fwd thr2 p)
    (hdist : |x - c| = |p - c|) : x = p := by
  cases fwd with
  | true =>
    simp only [snapQualifies, if_true] at hx hp
    rw [abs_of_pos (lt_of_lt_of_le h1 hx), abs_of_pos (lt_of_lt_of_le h2 hp)] at hdist
    linarith
  | false =>
    simp only [snapQualifies, Bool.false_eq_true, if_false] at hx hp
    rw [abs_of_neg (by linarith : x - c < 0), abs_of_neg (by linarith : p - c < 0)]
      at hdist
    linarith

/-- Claim C5: among all candidates passing their tier's threshold and the
direction filter, `findNextSnapPoint` returns one of them, the closest to
`currentPct`; it returns undefined exactly when no candidate qualifies; and
a priority candidate that is at least as close as every qualifier is the
one returned — in particular at exactly equal distance a priority candidate
wins (in a fixed direction an equidistant standard candidate is the same
point, so returning the closest returns the priority candidate). -/
theorem findNextSnapPoint_closest (currentPct : ℚ)
    (candidates priorityCandidates : List ℚ) (direction : String) :
    (findNextSnapPoint currentPct candidates priorityCandidates direction = none ↔
      ((∀ p ∈ candidates, ¬ snapQualifies currentPct
          (direction = "ArrowRight" || direction = "ArrowDown") MIN_JUMP p) ∧
       (∀ p ∈ priorityCandidates, ¬ snapQualifies currentPct
          (direction = "ArrowRight" || direction = "ArrowDown") EPSILON p))) ∧
    (∀ r, findNextSnapPoint currentPct candidates priorityCandidates direction = some r →
      ((r ∈ candidates ∧ snapQualifies currentPct
          (direction = "ArrowRight" || direction = "ArrowDown") MIN_JUMP r) ∨
       (r ∈ priorityCandidates ∧ snapQualifies currentPct
          (direction = "ArrowRight" || direction = "ArrowDown") EPSILON r)) ∧
      (∀ q ∈ candidates, snapQualifies currentPct
          (direction = "ArrowRight" || direction = "ArrowDown") MIN_JUMP q →
        |r - currentPct| ≤ |q - currentPct|) ∧
      (∀ q ∈ priorityCandidates, snapQualifies currentPct
          (direction = "ArrowRight" || direction = "ArrowDown") EPSILON q →
        |r - currentPct| ≤ |q - currentPct|)) ∧
    (∀ p ∈ priorityCandidates, snapQualifies currentPct
        (direction = "ArrowRight" || direction = "ArrowDown") EPSILON p →
      (∀ q ∈ candidates, snapQualifies currentPct
          (direction = "ArrowRight" || direction = "ArrowDown") MIN_JUMP q →
        |p - currentPct| ≤ |q - currentPct|) →
      (∀ q ∈ priorityCandidates, snapQualifies currentPct
          (direction = "ArrowRight" || direction = "ArrowDown") EPSILON q →
        |p - currentPct| ≤ |q - currentPct|) →
      findNextSnapPoint currentPct candidates priorityCandidates direction = some p) := by
  have hMJ : (0 : ℚ) < MIN_JUMP := by norm_num [MIN_JUMP]
  have hEPS : (0 : ℚ) < EPSILON := by norm_num [EPSILON]
  have hEq : findNextSnapPoint currentPct candidates priorityCandidates direction =
      (processCandidates currentPct
        (direction = "ArrowRight" || direction = "ArrowDown") EPSILON priorityCandidates
        (processCandidates currentPct
          (direction = "ArrowRight" || direction = "ArrowDown") MIN_JUMP candidates
          none)).map Prod.fst := rfl
  have hform1 : ∀ bp d,
      processCandidates currentPct
        (direction = "ArrowRight" || direction = "ArrowDown") MIN_JUMP candidates none =
        some (bp, d) → d = |bp - currentPct| :=
    processCandidates_form currentPct _ MIN_JUMP hMJ candidates none
      (by intro bp d h; cases h)
  have hform2 : ∀ bp d,
      processCandidates currentPct
        (direction = "ArrowRight" || direction = "ArrowDown") EPSILON priorityCandidates
        (processCandidates currentPct
          (direction = "ArrowRight" || direction = "ArrowDown") MIN_JUMP candidates
          none) = some (bp, d) → d = |bp - currentPct| :=
    processCandidates_form currentPct _ EPSILON hEPS priorityCandidates _ hform1
  refine ⟨?_, ?_, ?_⟩
  · -- none iff no qualifier
    rw [hEq, Option.map_eq_none',
      processCandidates_none_iff currentPct _ EPSILON hEPS priorityCandidates,
      processCandidates_none_iff currentPct _ MIN_JUMP hMJ candidates]
    tauto
  · -- a returned point is a qualifier and is minimal
    intro r hr
    rw [hEq, Option.map_eq_some'] at hr
    obtain ⟨⟨bp, d⟩, h2, hbp⟩ := hr
    simp only at hbp
    subst hbp
    have hd : d = |bp - currentPct| := hform2 bp d h2
    refine ⟨?_, ?_, ?_⟩
    · rcases processCandidates_provenance currentPct _ EPSILON hEPS priorityCandidates
        _ bp d h2 with h1 | hprio
      · rcases processCandidates_provenance currentPct _ MIN_JUMP hMJ candidates
          none bp d h1 with hnone | hstd
        · cases hnone
        · exact .inl hstd
      · exact .inr hprio
    · -- minimal among standard qualifiers
      intro q hq hqual
      rcases hphase1 : processCandidates currentPct
          (direction = "ArrowRight" || direction = "ArrowDown") MIN_JUMP candidates
          none with _ | p1
      · have := (processCandidates_none_iff currentPct _ MIN_JUMP hMJ
          candidates none).mp hphase1
        exact absurd hqual (this.2 q hq)
      · obtain ⟨b1, d1⟩ := p1
        have hd1 : d1 ≤ |q - currentPct| :=
          processCandidates_min currentPct _ MIN_JUMP hMJ candidates none b1 d1
            hphase1 q hq hqual
        rw [hphase1] at h2
        have hdd1 : d ≤ d1 :=
          processCandidates_mono currentPct _ EPSILON hEPS priorityCandidates
            b1 d1 bp d h2
        rw [← hd]
        exact le_trans hdd1 hd1
    · -- minimal among priority qualifiers
      intro q hq hqual
      rw [← hd]
      exact processCandidates_min currentPct _ EPSILON hEPS priorityCandidates
        _ bp d h2 q hq hqual
  · -- a weakly-closest priority qualifier is returned
    intro p hp hq hminstd hminprio
    rcases hphase2 : processCandidates currentPct
        (direction = "ArrowRight" || direction = "ArrowDown") EPSILON priorityCandidates
        (processCandidates currentPct
          (direction = "ArrowRight" || direction = "ArrowDown") MIN_JUMP candidates
          none) with _ | p2
    · have := (processCandidates_none_iff currentPct _ EPSILON hEPS priorityCandidates
        _).mp hphase2
      exact absurd hq (this.2 p hp)
    · obtain ⟨x, d⟩ := p2
      have hd : d = |x - currentPct| := hform2 x d hphase2
      have hdp : d ≤ |p - currentPct| :=
        processCandidates_min currentPct _ EPSILON hEPS priorityCandidates
          _ x d hphase2 p hp hq
      have hxqual :
          (x ∈ candidates ∧ snapQualifies currentPct
            (direction = "ArrowRight" || direction = "ArrowDown") MIN_JUMP x) ∨
          (x ∈ priorityCandidates ∧ snapQualifies currentPct
            (direction = "ArrowRight" || direction = "ArrowDown") EPSILON x) := by
        rcases processCandidates_provenance currentPct _ EPSILON hEPS priorityCandidates
          _ x d hphase2 with h1 | hprio
        · rcases processCandidates_provenance currentPct _ MIN_JUMP hMJ candidates
            none x d h1 with hnone | hstd
          · cases hnone
          · exact .inl hstd
        · exact .inr hprio
      have hxp : x = p := by
        rcases hxqual with ⟨hmem, hqx⟩ | ⟨hmem, hqx⟩
        · have h1 : |p - currentPct| ≤ |x - currentPct| := hminstd x hmem hqx
          have h2 : |x - currentPct| = |p - currentPct| := le_antisymm (hd ▸ hdp) h1
          exact snapQualifies_eq_of_dist_eq currentPct _ MIN_JUMP EPSILON x p hMJ hEPS
            hqx hq h2
        · have h1 : |p - currentPct| ≤ |x - currentPct| := hminprio x hmem hqx
          have h2 : |x - currentPct| = |p - currentPct| := le_antisymm (hd ▸ hdp) h1
          exact snapQualifies_eq_of_dist_eq currentPct _ EPSILON EPSILON x p hEPS hEPS
            hqx hq h2
      rw [hEq, hphase2, hxp]
      rfl

/-- Claim C5 witness: with standard candidate 60 and priority candidate 55
from 50 going right, the closest qualifier 55 is returned. -/
theorem findNextSnapPoint_closest_witness :
    findNextSnapPoint 50 [60] [55] "ArrowRight" = some 55 := by
  refine (findNextSnapPoint_closest 50 [60] [55] "ArrowRight").2.2 55 (by simp) ?_ ?_ ?_
  · norm_num [snapQualifies, EPSILON]
  · intro q hq hqual
    simp only [List.mem_singleton] at hq
    subst hq
    norm_num
  · intro q hq hqual
    simp only [List.mem_singleton] at hq
    subst hq
    exact le_refl _

/-- Claim C2 (amended): the End step of a drag checks only the two
immediate sides of the dragged divider.  With the divider's parent as the
page root over two leaves, the committed percentages `pA = fA/(fA+fB)*100`
and `pB` are written into the sides; if `pA ≤ MIN_AREA_PERCENT` the whole A
side is deleted and its sibling's content takes the parent's place, else
the same check runs for side B, else both sides stay with their committed
sizes.  No descendant of either side is examined. -/
theorem stopDragCommit_sides_only
    (pid : String) (por : Option String) (psz : Option ℚ) (pim : Option Image)
    (ptx pta : Option String) (aid bid : String) (asz bsz : Option ℚ)
    (aim bim : Option Image) (atx btx ata bta : Option String) (fA fB : ℚ)
    (hab : aid ≠ bid) (hpa : pid ≠ aid) (hpb : pid ≠ bid) :
    stopDragCommit
      (.mk pid "split" por psz pim ptx pta
        (some (.mk aid "unsplit" none asz aim atx ata none,
               .mk bid "unsplit" none bsz bim btx bta none)))
      aid bid pid fA fB =
      (if fA / (fA + fB) * 100 ≤ MIN_AREA_PERCENT then
        LNode.mk pid "unsplit" none psz bim btx bta none
      else if fB / (fA + fB) * 100 ≤ MIN_AREA_PERCENT then
        LNode.mk pid "unsplit" none psz aim atx ata none
      else
        LNode.mk pid "split" por psz pim ptx pta
          (some (.mk aid "unsplit" none (some (fA / (fA + fB) * 100)) aim atx ata none,
                 .mk bid "unsplit" none (some (fB / (fA + fB) * 100)) bim btx bta none))) := by
  by_cases hA : fA / (fA + fB) * 100 ≤ MIN_AREA_PERCENT <;>
    by_cases hB : fB / (fA + fB) * 100 ≤ MIN_AREA_PERCENT <;>
      simp [stopDragCommit, findNodeById, replaceFirst, setSizeFirst,
        deleteNodeFromTree, delGo, collapseInto, LNode.id, LNode.children,
        LNode.withChildren, LNode.withSize, LNode.splitState, hab, hab.symm,
        hpa, hpa.symm, hpb, hpb.symm, hA, hB]

/-- Claim C2 witness: the amended side-check behavior at a concrete commit
of 99.2%/0.8%: side B is at 0.8 ≤ 1 and is deleted, side A's content takes
the parent's place. -/
theorem stopDragCommit_sides_only_witness :
    ("a" : String) ≠ "b" ∧ ("p" : String) ≠ "a" ∧ ("p" : String) ≠ "b" ∧
    stopDragCommit
      (.mk "p" "split" (some "vertical") none none none none
        (some (.mk "a" "unsplit" none (some 50) none (some "keep") none none,
               .mk "b" "unsplit" none (some 50) none none none none)))
      "a" "b" "p" 124 1 =
      (if (124 : ℚ) / (124 + 1) * 100 ≤ MIN_AREA_PERCENT then
        LNode.mk "p" "unsplit" none none none none none none
      else if (1 : ℚ) / (124 + 1) * 100 ≤ MIN_AREA_PERCENT then
        LNode.mk "p" "unsplit" none none none (some "keep") none none
      else
        LNode.mk "p" "split" (some "vertical") none none none none
          (some (.mk "a" "unsplit" none (some (124 / (124 + 1) * 100)) none
                   (some "keep") none none,
                 .mk "b" "unsplit" none (some (1 / (124 + 1) * 100)) none none
                   none none))) :=
  ⟨by decide, by decide, by decide,
    stopDragCommit_sides_only "p" (some "vertical") none none none none "a" "b"
      (some 50) (some 50) none none (some "keep") none none none 124 1
      (by decide) (by decide) (by decide)⟩

/-- Claim C2 counterexample: the End step performs no degenerate-area sweep
of descendants.  Committing a 50/50 drag on `dragPage` deletes nothing and
leaves the grandchild `a1`, whose effective area `50 * 1/100 = 0.5` is
below the `MIN_AREA_PERCENT = 1` threshold, in the page. -/
theorem stopDragCommit_no_descendant_sweep :
    stopDragCommit dragPage "a" "b" "p" 1 1 = dragPage ∧
    ("a1", 1 / 2) ∈ effAreas dragA 50 ∧
    (1 / 2 : ℚ) ≤ MIN_AREA_PERCENT ∧
    (findNodeById (stopDragCommit dragPage "a" "b" "p" 1 1) "a1").isSome = true := by
  have h1 : stopDragCommit dragPage "a" "b" "p" 1 1 = dragPage := by
    norm_num +decide [stopDragCommit, dragPage, dragA, dragB, dragA1, dragA2,
      findNodeById, replaceFirst, setSizeFirst, MIN_AREA_PERCENT, LNode.id,
      LNode.children, LNode.withChildren, LNode.withSize]
  refine ⟨h1, ?_, by norm_num [MIN_AREA_PERCENT], ?_⟩
  · norm_num +decide [effAreas, dragA, dragA1, dragA2, parseSizeOr50, LNode.id,
      LNode.size]
  · rw [h1]
    simp +decide [findNodeById, dragPage, dragA, dragB, dragA1, dragA2, LNode.id]

/-- Unfold one undo off the end of a chain. -/
theorem undoN_succ {α : Type} (n : ℕ) (h : Hist α) :
    undoN (n + 1) h = undo (undoN n h) := by
  induction n generalizing h with
  | zero => rfl
  | succ m ih =>
    have : undoN (m + 1 + 1) h = undoN (m + 1) (undo h) := rfl
    rw [this, ih (undo h)]
    rfl

/-- `undo` pops exactly the head snapshot. -/
theorem undo_of_stack {α : Type} (h : Hist α) (x : α) (rest : List α)
    (hstack : h.undoStack = x :: rest) :
    (undo h).live = x ∧ (undo h).undoStack = rest := by
  obtain ⟨u, r, l⟩ := h
  simp only at hstack
  subst hstack
  exact ⟨rfl, rfl⟩

/-- As long as the undo stack never exceeds `MAX_HISTORY`, a block of edit
steps followed by as many undos restores both the live state and the undo
stack. -/
theorem runEdits_undoN {α : Type} (fs : List (α → α)) :
    ∀ h : Hist α, h.undoStack.length + fs.length ≤ MAX_HISTORY →
      (undoN fs.length (runEdits h fs)).undoStack = h.undoStack ∧
      (undoN fs.length (runEdits h fs)).live = h.live := by
  induction fs with
  | nil => intro h _; exact ⟨rfl, rfl⟩
  | cons f fs ih =>
    intro h hlen
    have hnoev : ¬ (MAX_HISTORY < h.undoStack.length + 1) := by
      simp only [List.length_cons] at hlen
      omega
    have hstep : (editStep h f).undoStack = h.live :: h.undoStack := by
      simp [editStep, mutate, saveState, hnoev]
    have hrun : runEdits h (f :: fs) = runEdits (editStep h f) fs := rfl
    have hlen' : (editStep h f).undoStack.length + fs.length ≤ MAX_HISTORY := by
      rw [hstep]
      simp only [List.length_cons]
      simp only [List.length_cons] at hlen
      omega
    obtain ⟨hstack, hlive⟩ := ih (editStep h f) hlen'
    have hlistlen : (f :: fs).length = fs.length + 1 := by simp
    rw [hrun, hlistlen, undoN_succ]
    have hpop := undo_of_stack (undoN fs.length (runEdits (editStep h f) fs))
      h.live h.undoStack (by rw [hstack, hstep])
    exact ⟨hpop.2, hpop.1⟩

/-- Claim C1 (amended): starting from an empty undo stack, `N` edit steps
(each a `saveState` followed by a mutation) with `N ≤ MAX_HISTORY` followed
by `N` undos restore the document state (snapshot contents and id counter)
to its value before the first save; and one `redo` after any undo with no
intervening save replays exactly the state that was undone (`redo ∘ undo`
is the identity whenever an undo is possible). -/
theorem history_round_trip {α : Type} (s0 : α) (fs : List (α → α))
    (rstack : List α) (hlen : fs.length ≤ MAX_HISTORY) :
    (undoN fs.length (runEdits ⟨[], rstack, s0⟩ fs)).live = s0 ∧
    (∀ h : Hist α, h.undoStack ≠ [] → redo (undo h) = h) := by
  constructor
  · exact (runEdits_undoN fs ⟨[], rstack, s0⟩ (by simpa using hlen)).2
  · intro h hne
    obtain ⟨u, r, l⟩ := h
    match u, hne with
    | x :: rest, _ => rfl

/-- Claim C1 witness: three edits and three undos on a numeric document
state recover the initial state 0, and redo after undo replays state 3. -/
theorem history_round_trip_witness :
    ([(· + 1), (· + 1), (· + 1)] : List (ℕ → ℕ)).length ≤ MAX_HISTORY ∧
    (undoN ([(· + 1), (· + 1), (· + 1)] : List (ℕ → ℕ)).length
      (runEdits ⟨[], [], 0⟩ [(· + 1), (· + 1), (· + 1)])).live = 0 ∧
    (∀ h : Hist ℕ, h.undoStack ≠ [] → redo (undo h) = h) :=
  ⟨by decide, history_round_trip 0 [(· + 1), (· + 1), (· + 1)] [] (by decide)⟩

set_option maxRecDepth 20000 in
/-- Claim C1 counterexample: with `N = MAX_HISTORY + 1 = 51` edit steps the
oldest snapshot is evicted, and 51 undos land on state 1, not the initial
state 0 — the round trip fails for `N` beyond the history bound. -/
theorem history_round_trip_counterexample :
    (undoN 51 (runEdits (⟨[], [], 0⟩ : Hist ℕ) (List.replicate 51 (· + 1)))).live = 1 ∧
    (1 : ℕ) ≠ 0 := by
  constructor
  · decide
  · decide

/-- `updateIds` only advances the id counter. -/
theorem updateIds_le (n : LNode) (cid : ℕ) : cid ≤ (updateIds n cid).2 := by
  induction n, cid using updateIds.induct with
  | case1 => simp [updateIds]
  | case2 =>
    simp_all [updateIds]
    omega

/-- Claim C6 (amended): no structural document operation decreases the id
counter — `addPage`, `switchPage`, `deletePage`, `duplicatePage`,
`reorderPage` and the split step preserve or increase it — but `undo` (and
symmetrically `redo`) restores the snapshot's saved counter verbatim, which
can be lower than the current one, so the counter is not monotone across
undo/redo. -/
theorem currentId_monotone_except_restore (s : DocState) (i fi ti : ℤ)
    (n : LNode) (altKey ctrlKey dv : Bool) (cid : ℕ) :
    s.currentId ≤ (addPage s).currentId ∧
    (switchPage i s).currentId = s.currentId ∧
    (deletePage i s).currentId = s.currentId ∧
    s.currentId ≤ (duplicatePage i s).currentId ∧
    (reorderPage fi ti s).currentId = s.currentId ∧
    cid ≤ (splitNode n altKey ctrlKey dv cid).2 ∧
    (∀ (h : Hist (String × ℕ)) (x : String × ℕ) (rest : List (String × ℕ)),
      h.undoStack = x :: rest → (undo h).live = x) := by
  refine ⟨?_, ?_, ?_, ?_, ?_, ?_, ?_⟩
  · simp [addPage]
  · simp only [switchPage]; split <;> rfl
  · simp only [deletePage]; split <;> rfl
  · simp only [duplicatePage]
    split
    · exact le_refl _
    · split
      · exact le_refl _
      · exact updateIds_le _ _
  · simp only [reorderPage]
    split
    · rfl
    · split
      · rfl
      · split
        · rfl
        · split
          · rfl
          · rfl
  · obtain ⟨nid, nss, nor, nsz, nim, ntx, nta, nch⟩ := n
    simp [splitNode]
  · intro h x rest hstack
    exact (undo_of_stack h x rest hstack).1

/-- Claim C6 witness: the monotonicity conjunction applied at a concrete
document state, and `undo` restoring the concrete snapshot `("x", 3)`. -/
theorem currentId_monotone_except_restore_witness :
    ((⟨[freshPage 1], 0, 1⟩ : DocState).currentId ≤
      (addPage ⟨[freshPage 1], 0, 1⟩).currentId) ∧
    ((⟨[("x", 3)], [], ("y", 7)⟩ : Hist (String × ℕ)).undoStack = ("x", 3) :: [] ∧
      (undo (⟨[("x", 3)], [], ("y", 7)⟩ : Hist (String × ℕ))).live = ("x", 3)) :=
  ⟨(currentId_monotone_except_restore ⟨[freshPage 1], 0, 1⟩ 0 0 0 (freshPage 1)
      false false false 0).1,
   rfl,
   (currentId_monotone_except_restore ⟨[freshPage 1], 0, 1⟩ 0 0 0 (freshPage 1)
      false false false 0).2.2.2.2.2.2 ⟨[("x", 3)], [], ("y", 7)⟩ ("x", 3) [] rfl⟩

/-- Claim C6 counterexample: undo does decrease the id counter.  Saving at
counter 1, mutating the document to counter 5 and undoing restores counter
1 — the per-document counter is not monotone across undo, contradicting
the claim that no operation ever decreases it. -/
theorem undo_decreases_currentId :
    ((mutate (fun _ => ("<div>x</div>", 5))
        (saveState (⟨[], [], ("", 1)⟩ : Hist (String × ℕ)))).live).2 = 5 ∧
    ((undo (mutate (fun _ => ("<div>x</div>", 5))
        (saveState (⟨[], [], ("", 1)⟩ : Hist (String × ℕ))))).live).2 = 1 ∧
    (1 : ℕ) < 5 := by
  refine ⟨rfl, rfl, by decide⟩

/-- Claim C9: directional focus navigation is symmetric for a level pair of
leaves: with a bounds cache holding exactly two leaves whose vertical
centers agree and whose horizontal centers are ordered, the weighted
closest-in-direction search returns the right leaf for a Right query from
the left one and the left leaf for a Left query from the right one (only
leaves strictly past the current center on the axis are considered, with
cross-axis deviation weighted twice). -/
theorem getClosestRect_symmetric (aId bId : String) (rA rB : RectBounds)
    (hne : aId ≠ bId) (hx : centerX rA < centerX rB)
    (_hy : centerY rA = centerY rB) :
    getClosestRect [(aId, rA), (bId, rB)] aId rA "ArrowRight" = some bId ∧
    getClosestRect [(aId, rA), (bId, rB)] bId rB "ArrowLeft" = some aId := by
  have hx' : rA.left + rA.width / 2 < rB.left + rB.width / 2 := hx
  constructor <;>
    simp +decide [getClosestRect, closestStep, centerX, centerY, hne, hne.symm,
      hx', List.find?, List.foldl]

/-- Claim C9 witness: two 50×100 leaves side by side in a 100×100 page. -/
theorem getClosestRect_symmetric_witness :
    ("A" : String) ≠ "B" ∧
    centerX ⟨0, 0, 50, 100⟩ < centerX ⟨50, 0, 50, 100⟩ ∧
    centerY ⟨0, 0, 50, 100⟩ = centerY ⟨50, 0, 50, 100⟩ ∧
    (getClosestRect [("A", ⟨0, 0, 50, 100⟩), ("B", ⟨50, 0, 50, 100⟩)] "A"
        ⟨0, 0, 50, 100⟩ "ArrowRight" = some "B" ∧
     getClosestRect [("A", ⟨0, 0, 50, 100⟩), ("B", ⟨50, 0, 50, 100⟩)] "B"
        ⟨50, 0, 50, 100⟩ "ArrowLeft" = some "A") :=
  ⟨by decide, by norm_num [centerX], by norm_num [centerY],
    getClosestRect_symmetric "A" "B" ⟨0, 0, 50, 100⟩ ⟨50, 0, 50, 100⟩
      (by decide) (by norm_num [centerX]) (by norm_num [centerY])⟩

/-- `splice(start, 1)` removes at most one element, and exactly one when
the clamped start is in range. -/
theorem jsSpliceRemoveOne_length {α : Type} (l : List α) (start : ℤ) :
    l.length - 1 ≤ (jsSpliceRemoveOne l start).length ∧
    (jsSpliceRemoveOne l start).length ≤ l.length := by
  unfold jsSpliceRemoveOne
  simp only [List.length_append, List.length_take, List.length_drop]
  split <;> omega

/-- The invariant in purely arithmetic form. -/
theorem pagesInvariant_iff (s : DocState) :
    PagesInvariant s ↔
      (0 < s.pages.length ∧ 0 ≤ s.currentPageIndex ∧
       s.currentPageIndex < (s.pages.length : ℤ)) := by
  unfold PagesInvariant
  rw [← List.length_pos]

/-- Claim C10: every page operation preserves the page-collection
invariant (a non-empty page list with an in-range current index);
`deletePage` is a no-op when exactly one page remains, and `switchPage`,
`duplicatePage` and `reorderPage` ignore out-of-range indices. -/
theorem page_operations_preserve_invariant (s : DocState) (i fi ti : ℤ)
    (hInv : PagesInvariant s) :
    PagesInvariant (addPage s) ∧
    PagesInvariant (switchPage i s) ∧
    PagesInvariant (deletePage i s) ∧
    PagesInvariant (duplicatePage i s) ∧
    PagesInvariant (reorderPage fi ti s) ∧
    (s.pages.length = 1 → deletePage i s = s) ∧
    (¬ (0 ≤ i ∧ i < (s.pages.length : ℤ)) → switchPage i s = s) ∧
    ((i < 0 ∨ (s.pages.length : ℤ) ≤ i) → duplicatePage i s = s) ∧
    ((fi < 0 ∨ (s.pages.length : ℤ) ≤ fi ∨ ti < 0 ∨ (s.pages.length : ℤ) ≤ ti) →
      reorderPage fi ti s = s) := by
  rw [pagesInvariant_iff] at hInv
  obtain ⟨hpos, hle, hlt⟩ := hInv
  refine ⟨?_, ?_, ?_, ?_, ?_, ?_, ?_, ?_, ?_⟩
  · -- addPage
    rw [pagesInvariant_iff]
    simp only [addPage, List.length_append, List.length_cons, List.length_nil]
    constructor
    · omega
    constructor
    · omega
    · push_cast
      omega
  · -- switchPage
    rw [pagesInvariant_iff]
    unfold switchPage
    split
    · next hin => exact ⟨hpos, hin.1, hin.2⟩
    · exact ⟨hpos, hle, hlt⟩
  · -- deletePage
    rw [pagesInvariant_iff]
    unfold deletePage
    split
    · exact ⟨hpos, hle, hlt⟩
    · next hgt =>
      have hlen := jsSpliceRemoveOne_length s.pages i
      simp only
      split
      · constructor
        · omega
        · constructor
          · omega
          · omega
      · next hfit =>
        constructor
        · omega
        · constructor
          · exact hle
          · omega
  · -- duplicatePage
    rw [pagesInvariant_iff]
    unfold duplicatePage
    split
    · exact ⟨hpos, hle, hlt⟩
    · next hrange =>
      rcases hget : s.pages.get? i.toNat with _ | pg
      · simp only [hget]
        exact ⟨hpos, hle, hlt⟩
      · simp only [hget]
        have hik : i.toNat < s.pages.length := by omega
        simp only [List.length_append, List.length_take, List.length_cons,
          List.length_drop]
        constructor
        · omega
        · constructor
          · omega
          · push_cast
            omega
  · -- reorderPage
    rw [pagesInvariant_iff]
    unfold reorderPage
    split
    · exact ⟨hpos, hle, hlt⟩
    split
    · exact ⟨hpos, hle, hlt⟩
    split
    · exact ⟨hpos, hle, hlt⟩
    next hne hfrom hto =>
      rcases hget : s.pages.get? fi.toNat with _ | pg
      · simp only [hget]
        exact ⟨hpos, hle, hlt⟩
      · simp only [hget]
        have hfk : fi.toNat < s.pages.length := by omega
        have htk : ti.toNat ≤ s.pages.length - 1 := by omega
        simp only [List.length_append, List.length_take, List.length_cons,
          List.length_drop]
        refine ⟨by omega, ?_⟩
        split
        · push_cast
          omega
        split
        · next hcase =>
          push_cast
          omega
        split
        · next hcase =>
          push_cast
          omega
        · push_cast
          omega
  · -- deletePage is a no-op with one page left
    intro hone
    unfold deletePage
    rw [if_pos (by omega)]
  · -- switchPage ignores out-of-range indices
    intro hout
    unfold switchPage
    rw [if_neg hout]
  · -- duplicatePage ignores out-of-range indices
    intro hout
    unfold duplicatePage
    rw [if_pos hout]
  · -- reorderPage ignores out-of-range indices
    intro hout
    unfold reorderPage
    by_cases heq : fi = ti
    · rw [if_pos heq]
    · rw [if_neg heq]
      rcases hout with h | h | h | h
      · rw [if_pos (.inl h)]
      · rw [if_pos (.inr h)]
      · by_cases hf : fi < 0 ∨ (s.pages.length : ℤ) ≤ fi
        · rw [if_pos hf]
        · rw [if_neg hf, if_pos (.inl h)]
      · by_cases hf : fi < 0 ∨ (s.pages.length : ℤ) ≤ fi
        · rw [if_pos hf]
        · rw [if_neg hf, if_pos (.inr h)]

/-- Claim C10 witness: the invariant-preservation conjunction applied to a
one-page document with in-range and out-of-range indices. -/
theorem page_operations_preserve_invariant_witness :
    PagesInvariant ⟨[freshPage 1], 0, 1⟩ ∧
    (PagesInvariant (addPage ⟨[freshPage 1], 0, 1⟩) ∧
     PagesInvariant (switchPage 2 ⟨[freshPage 1], 0, 1⟩) ∧
     PagesInvariant (deletePage 2 ⟨[freshPage 1], 0, 1⟩) ∧
     PagesInvariant (duplicatePage 2 ⟨[freshPage 1], 0, 1⟩) ∧
     PagesInvariant (reorderPage 0 5 ⟨[freshPage 1], 0, 1⟩) ∧
     ((⟨[freshPage 1], 0, 1⟩ : DocState).pages.length = 1 →
       deletePage 2 ⟨[freshPage 1], 0, 1⟩ = ⟨[freshPage 1], 0, 1⟩) ∧
     (¬ (0 ≤ (2 : ℤ) ∧ (2 : ℤ) <
         ((⟨[freshPage 1], 0, 1⟩ : DocState).pages.length : ℤ)) →
       switchPage 2 ⟨[freshPage 1], 0, 1⟩ = ⟨[freshPage 1], 0, 1⟩) ∧
     (((2 : ℤ) < 0 ∨
         ((⟨[freshPage 1], 0, 1⟩ : DocState).pages.length : ℤ) ≤ 2) →
       duplicatePage 2 ⟨[freshPage 1], 0, 1⟩ = ⟨[freshPage 1], 0, 1⟩) ∧
     (((0 : ℤ) < 0 ∨
         ((⟨[freshPage 1], 0, 1⟩ : DocState).pages.length : ℤ) ≤ 0 ∨
         (5 : ℤ) < 0 ∨
         ((⟨[freshPage 1], 0, 1⟩ : DocState).pages.length : ℤ) ≤ 5) →
       reorderPage 0 5 ⟨[freshPage 1], 0, 1⟩ = ⟨[freshPage 1], 0, 1⟩)) :=
  ⟨⟨List.cons_ne_nil _ _, by norm_num, by norm_num⟩,
    page_operations_preserve_invariant ⟨[freshPage 1], 0, 1⟩ 2 0 5
      ⟨List.cons_ne_nil _ _, by norm_num, by norm_num⟩⟩

end Broco
